import Mathlib

/-!
Verification development for the sensAI evaluation and model-comparison
subsystem.  The Python modules
`sensai/evaluation/eval_stats/eval_stats_classification.py`,
`sensai/evaluation/eval_util.py` and `sensai/data.py` are shallowly embedded:
Python scalar values (class labels) become the inductive type `PyVal`,
pandas data frames of class probabilities become `DataFrame`, floats become
rationals (reals only where logarithms and exponentials are required), and
code that can raise becomes `Except String`.
-/

namespace SensAI

/-- Python scalar values that occur as class labels in the evaluation code:
integers, booleans and strings. -/
inductive PyVal where
  | int : Int → PyVal
  | bool : Bool → PyVal
  | str : String → PyVal
deriving DecidableEq, Repr

/-- Python equality (`==`) on label values.  In Python, `True == 1` and
`False == 0` hold across the bool/int divide, while strings compare equal
only to equal strings. -/
def pyEq : PyVal → PyVal → Bool
  | .int m, .int n => m == n
  | .bool a, .bool b => a == b
  | .str s, .str t => s == t
  | .int m, .bool b => m == (if b then (1 : Int) else 0)
  | .bool b, .int m => (if b then (1 : Int) else 0) == m
  | _, _ => false

/-- Python membership `x in xs` for a list, which tests `==` elementwise. -/
def pyMem (x : PyVal) (xs : List PyVal) : Bool :=
  xs.any (fun y => pyEq x y)

/-- `BINARY_CLASSIFICATION_POSITIVE_LABEL_CANDIDATES = [1, True, "1", "True"]`
(eval_stats_classification.py line 21). -/
def binaryClassificationPositiveLabelCandidates : List PyVal :=
  [.int 1, .bool true, .str "1", .str "True"]

/-- The `binaryPositiveLabel` argument of `ClassificationEvalStats.__init__`:
the sentinel `GUESS`, `None`, or an explicit label. -/
inductive BPLArg where
  | guess : BPLArg
  | noLabel : BPLArg
  | label : PyVal → BPLArg
deriving DecidableEq, Repr

/-- The label-resolution logic of `ClassificationEvalStats.__init__`
(eval_stats_classification.py lines 234-253): with `GUESS`, when there are
exactly two labels, the first candidate of
`BINARY_CLASSIFICATION_POSITIVE_LABEL_CANDIDATES` that occurs among the
labels is chosen; when none is found (or the label count is not 2) the
result is `None`.  An explicit `None` stays `None` and an explicit label is
kept as given (the code then only emits warnings). -/
def resolveBinaryPositiveLabel (labels : List PyVal) (arg : BPLArg) : Option PyVal :=
  match arg with
  | .guess =>
      if labels.length = 2 then
        binaryClassificationPositiveLabelCandidates.find? (fun c => pyMem c labels)
      else
        none
  | .noLabel => none
  | .label l => some l

/-- A pandas data frame of class probabilities: the column labels are class
labels and each row holds one probability per column. -/
structure DataFrame where
  columns : List PyVal
  rows : List (List ℚ)
deriving DecidableEq, Repr

/-- Column selection `df[label]` on a probability data frame: the values, in
row order, of the first column whose label compares `==`-equal to `label`
(a missing cell reads as 0; the theorems require well-formed frames, where
every row has one entry per column, so the default is never exercised). -/
def DataFrame.col (df : DataFrame) (label : PyVal) : List ℚ :=
  match df.columns.findIdx? (fun c => pyEq c label) with
  | some j => df.rows.map (fun r => r.getD j 0)
  | none => []

/-- Whether a label occurs among the columns of a frame (Python
`label in df.columns`). -/
def DataFrame.hasCol (df : DataFrame) (label : PyVal) : Bool :=
  pyMem label df.columns

/-- A classification metric object: its `name`, its `requiresProbabilities`
class attribute, and its `_computeValue` implementation, carried as a
function of the true labels, the predicted labels and the optional
probability frame (the Python class is abstract; concrete subclasses
supply `_computeValue`). -/
structure ClassificationMetric where
  name : String
  requiresProbabilities : Bool
  computeValueImpl : List PyVal → List PyVal → Option DataFrame → ℚ

/-- `ClassificationMetric.computeValue` (eval_stats_classification.py lines
30-33): raises `ValueError` when the metric requires class probabilities and
none were passed, and otherwise delegates to `_computeValue`. -/
def ClassificationMetric.computeValue (m : ClassificationMetric)
    (y_true y_predicted : List PyVal) (probabilities : Option DataFrame) :
    Except String ℚ :=
  if m.requiresProbabilities && probabilities.isNone then
    .error "metric requires class probabilities"
  else
    .ok (m.computeValueImpl y_true y_predicted probabilities)

/-- The state of a constructed `ClassificationEvalStats` object, restricted
to the fields the verified properties read.  `metrics` is the merged list
stored by the base class `PredictionEvalStats.__init__` (the provided
metrics followed by the additional metrics). -/
structure CEStats where
  y_predicted : List PyVal
  y_true : List PyVal
  y_predictedClassProbabilities : Option DataFrame
  labels : List PyVal
  binaryPositiveLabel : Option PyVal
  metrics : List ClassificationMetric

/-- Set equality under Python `==`, as tested by
`set(y_predictedClassProbabilities.columns) != set(labels)`. -/
def pySetEq (xs ys : List PyVal) : Bool :=
  xs.all (fun x => pyMem x ys) && ys.all (fun y => pyMem y xs)

/-- `ClassificationEvalStats.__init__` (eval_stats_classification.py lines
203-273): validates the probability frame against the labels and the ground
truth, resolves the binary positive label, and rejects additional metrics
that require probabilities when no probabilities were provided.  The
`metrics is None` defaulting branch (lines 255-262) is not modelled: every
construction covered by the theorems below passes `metrics` explicitly.
The base class `PredictionEvalStats.__init__` (not part of the sources)
stores the provided metrics followed by the additional metrics. -/
def mkClassificationEvalStats (y_predicted y_true : List PyVal)
    (y_predictedClassProbabilities : Option DataFrame) (labels : List PyVal)
    (metrics : List ClassificationMetric)
    (additionalMetrics : Option (List ClassificationMetric))
    (binaryPositiveLabel : BPLArg) : Except String CEStats :=
  let probCheck : Except String Unit :=
    match y_predictedClassProbabilities with
    | some df =>
        if !pySetEq df.columns labels then
          .error "columns in class probabilities data frame do not correspond to labels"
        else if df.rows.length ≠ y_true.length then
          .error "row count in class probabilities data frame does not match ground truth"
        else
          .ok ()
    | none => .ok ()
  match probCheck with
  | .error e => .error e
  | .ok () =>
      let resolved := resolveBinaryPositiveLabel labels binaryPositiveLabel
      let addl := additionalMetrics.getD []
      if (y_predictedClassProbabilities.isNone : Bool)
          && addl.any (fun m => m.requiresProbabilities) then
        .error "additional metric not supported, as class probabilities were not provided"
      else
        .ok { y_predicted := y_predicted
              y_true := y_true
              y_predictedClassProbabilities := y_predictedClassProbabilities
              labels := labels
              binaryPositiveLabel := resolved
              metrics := metrics ++ addl }

/-- `ClassificationEvalStats.metricsDict` (eval_stats_classification.py lines
289-294): walks the stored metrics, skipping any metric that requires
probabilities when none are available, and computes each remaining value via
`computeMetricValue` (which calls `Metric.computeValueForEvalStats`, i.e.
`computeValue` on the stats fields).  The dict is modelled as the
association list of (name, value) pairs in iteration order. -/
def CEStats.metricsDict (es : CEStats) : Except String (List (String × ℚ)) :=
  es.metrics.foldlM
    (fun d m =>
      if !m.requiresProbabilities || es.y_predictedClassProbabilities.isSome then
        do
          let v ← m.computeValue es.y_true es.y_predicted es.y_predictedClassProbabilities
          pure (d ++ [(m.name, v)])
      else
        pure d)
    []

/-- `self.isBinary = binaryPositiveLabel is not None`
(eval_stats_classification.py line 253). -/
def CEStats.isBinary (es : CEStats) : Bool :=
  es.binaryPositiveLabel.isSome

/-- The state of a `BinaryClassificationCounts` object
(eval_stats_classification.py lines 353-376). -/
structure BinaryClassificationCounts where
  zeroDenominatorMetricValue : ℚ
  tp : Nat
  tn : Nat
  fp : Nat
  fn : Nat
deriving DecidableEq, Repr

/-- The loop body of `BinaryClassificationCounts.__init__`: one (prediction,
ground truth) pair updates exactly one of the four counters. -/
def countsStep (c : BinaryClassificationCounts) (pg : Bool × Bool) :
    BinaryClassificationCounts :=
  if pg.2 then
    if pg.1 then { c with tp := c.tp + 1 } else { c with fn := c.fn + 1 }
  else
    if pg.1 then { c with fp := c.fp + 1 } else { c with tn := c.tn + 1 }

/-- `BinaryClassificationCounts.__init__` (lines 354-376): all four counters
start at zero and the zipped (prediction, ground truth) pairs are folded
through `countsStep`; `zip` stops at the shorter sequence. -/
def mkBinaryClassificationCounts (isPositivePrediction isPositiveGroundTruth : List Bool)
    (zeroDenominatorMetricValue : ℚ) : BinaryClassificationCounts :=
  (isPositivePrediction.zip isPositiveGroundTruth).foldl countsStep
    { zeroDenominatorMetricValue := zeroDenominatorMetricValue
      tp := 0, tn := 0, fp := 0, fn := 0 }

/-- `BinaryClassificationCounts._frac` (lines 393-396): guarded division,
returning `zeroDenominatorMetricValue` when the denominator is zero. -/
def BinaryClassificationCounts.frac (c : BinaryClassificationCounts)
    (numerator denominator : ℚ) : ℚ :=
  if denominator = 0 then c.zeroDenominatorMetricValue else numerator / denominator

/-- `BinaryClassificationCounts.getPrecision` (lines 398-399). -/
def BinaryClassificationCounts.getPrecision (c : BinaryClassificationCounts) : ℚ :=
  c.frac c.tp (c.tp + c.fp)

/-- `BinaryClassificationCounts.getRecall` (lines 401-402). -/
def BinaryClassificationCounts.getRecall (c : BinaryClassificationCounts) : ℚ :=
  c.frac c.tp (c.tp + c.fn)

/-- `BinaryClassificationCounts.getF1` (lines 404-405). -/
def BinaryClassificationCounts.getF1 (c : BinaryClassificationCounts) : ℚ :=
  c.frac c.tp (c.tp + (1 / 2) * (c.fp + c.fn))

/-- `BinaryClassificationCounts.fromProbabilityThreshold` (lines 378-380):
a sample is predicted positive exactly when its positive-class probability
is at least the threshold; `zeroDenominatorMetricValue` keeps its default 0. -/
def fromProbabilityThreshold (probabilities : List ℚ) (threshold : ℚ)
    (isPositiveGroundTruth : List Bool) : BinaryClassificationCounts :=
  mkBinaryClassificationCounts (probabilities.map (fun p => decide (threshold ≤ p)))
    isPositiveGroundTruth 0

/-- `BinaryClassificationCounts.fromEvalStats` (lines 382-391): requires a
binary problem and a probability frame, reads the positive-class probability
column and compares each ground-truth label with the positive label. -/
def fromEvalStats (es : CEStats) (threshold : ℚ) :
    Except String BinaryClassificationCounts :=
  match es.binaryPositiveLabel with
  | none => .error "probability threshold variation data requires binary classification"
  | some posLabel =>
      match es.y_predictedClassProbabilities with
      | none => .error "no probability data"
      | some df =>
          .ok (fromProbabilityThreshold (df.col posLabel) threshold
            (es.y_true.map (fun g => pyEq g posLabel)))

/-- `np.linspace(start, stop, num)` with the default `endpoint=True`, in
exact rational arithmetic. -/
def linspace (start stop : ℚ) (num : Nat) : List ℚ :=
  (List.range num).map (fun i : ℕ => start + (stop - start) * i / ((num : ℚ) - 1))

/-- The state of a `BinaryClassificationProbabilityThresholdVariationData`
object: the thresholds and the counts computed for each. -/
structure ThresholdVariationData where
  thresholds : List ℚ
  counts : List BinaryClassificationCounts

/-- `BinaryClassificationProbabilityThresholdVariationData.__init__`
(eval_stats_classification.py lines 408-413): the thresholds are
`np.linspace(0, 1, 101)` and `fromEvalStats` is applied at each of them in
order (the Python loop appends one counts object per threshold, raising as
soon as the eval stats are not binary or lack probabilities). -/
def mkThresholdVariationData (es : CEStats) : Except String ThresholdVariationData := do
  let ts := linspace 0 1 101
  let cs ← ts.mapM (fun t => fromEvalStats es t)
  pure { thresholds := ts, counts := cs }

/-- The accumulation step of
`BinaryClassificationMetricRecallForPrecision.computeValueForEvalStats`
(lines 188-197): `result` starts as NaN (modelled `none`) and is replaced by
a qualifying recall whenever it is NaN or smaller. -/
def recallForPrecisionStep (minPrecision : ℚ) (result : Option ℚ)
    (c : BinaryClassificationCounts) : Option ℚ :=
  if minPrecision ≤ c.getPrecision then
    match result with
    | none => some c.getRecall
    | some r => if r < c.getRecall then some c.getRecall else some r
  else
    result

/-- `BinaryClassificationMetricRecallForPrecision.computeValueForEvalStats`
(lines 188-197): builds the probability-threshold variation data and folds
`recallForPrecisionStep` over its counts. -/
def recallForPrecisionComputeValue (minPrecision : ℚ) (es : CEStats) :
    Except String (Option ℚ) := do
  let varData ← mkThresholdVariationData es
  pure (varData.counts.foldl (recallForPrecisionStep minPrecision) none)

/-- The per-sample true-class probability extraction loop of
`ClassificationMetricGeometricMeanOfTrueClassProbability._computeValue`
(eval_stats_classification.py lines 58-65): a sample whose true class is not
among the probability-frame columns contributes 0, otherwise the entry of
the true-class column at the sample index is read. -/
def trueClassProbabilities (y_true : List PyVal) (df : DataFrame) : List ℚ :=
  (List.range y_true.length).map (fun i =>
    let trueClass := y_true.getD i (.int 0)
    if df.hasCol trueClass then (df.col trueClass).getD i 0 else 0)

/-- The flooring step `np.maximum(1e-3, ...)` of line 67, applied before the
logarithm is taken. -/
def flooredTrueClassProbabilities (y_true : List PyVal) (df : DataFrame) : List ℚ :=
  (trueClassProbabilities y_true df).map (fun p => max (1 / 1000) p)

/-- `ClassificationMetricGeometricMeanOfTrueClassProbability._computeValue`
(lines 58-68): `np.exp(np.log(np.maximum(1e-3, probs)).sum() / len(probs))`,
with the floats idealised as real numbers. -/
noncomputable def geoMeanTrueClassProbability (y_true : List PyVal) (df : DataFrame) : ℝ :=
  let lp := (flooredTrueClassProbabilities y_true df).map (fun p : ℚ => Real.log (p : ℝ))
  Real.exp (lp.sum / lp.length)

/-- Geometric mean of a list of reals, as the specification states it: the
n-th root of the product. -/
noncomputable def geometricMean (xs : List ℝ) : ℝ :=
  xs.prod ^ ((1 : ℝ) / xs.length)

/-- Number of positions where the prediction equals (`==`) the ground truth. -/
def nCorrect (y_true y_predicted : List PyVal) : Nat :=
  (y_true.zip y_predicted).countP (fun tp => pyEq tp.1 tp.2)

/-- Modelled from the spec: `sklearn.metrics.accuracy_score` is an external
collaborator consumed by `ClassificationMetricAccuracy`; its documented
value is the fraction of samples whose predicted label equals the true
label. -/
def accuracyScore (y_true y_predicted : List PyVal) : ℚ :=
  (nCorrect y_true y_predicted : ℚ) / y_true.length

/-- The list comprehension
`[evalStats.y_predictedClassProbabilities for evalStats in self.statsList]`
fed to `pd.concat` in `getGlobalStats` (line 332): concatenation raises when
any fold lacks a probability frame. -/
def collectProbabilityFrames : List CEStats → Option (List DataFrame)
  | [] => some []
  | es :: rest =>
      match es.y_predictedClassProbabilities, collectProbabilityFrames rest with
      | some df, some dfs => some (df :: dfs)
      | _, _ => none

/-- `pd.concat` on probability frames: row-wise concatenation in list order.
This models the pandas behaviour exactly when all frames share the same
columns, which the theorems require. -/
def concatDataFrames : List DataFrame → DataFrame
  | [] => { columns := [], rows := [] }
  | df0 :: rest => { columns := df0.columns, rows := (df0 :: rest).flatMap (fun d => d.rows) }

/-- Converts a stored `binaryPositiveLabel` field back into the constructor
argument, as `getGlobalStats` passes `es0.binaryPositiveLabel`. -/
def bplArgOfOption : Option PyVal → BPLArg
  | none => .noLabel
  | some l => .label l

/-- The rows of the probability frame of one fold (empty when absent). -/
def foldProbabilityRows (es : CEStats) : List (List ℚ) :=
  match es.y_predictedClassProbabilities with
  | some df => df.rows
  | none => []

/-- `ClassificationEvalStatsCollection.getGlobalStats`
(eval_stats_classification.py lines 326-339): concatenates `y_true` and
`y_predicted` over all folds in list order; when the first fold carries a
probability frame, concatenates the frames and takes the labels from the
concatenated columns, otherwise passes no probabilities and the labels of
the first fold; then constructs `ClassificationEvalStats` with the first
fold's `binaryPositiveLabel` and `metrics`. -/
def getGlobalStats : List CEStats → Except String CEStats
  | [] => .error "empty stats list"
  | es0 :: rest =>
      let y_true := (es0 :: rest).flatMap (fun es => es.y_true)
      let y_predicted := (es0 :: rest).flatMap (fun es => es.y_predicted)
      match es0.y_predictedClassProbabilities with
      | some _ =>
          match collectProbabilityFrames (es0 :: rest) with
          | none => .error "cannot concatenate missing probability frame"
          | some dfs =>
              let y_probs := concatDataFrames dfs
              mkClassificationEvalStats y_predicted y_true (some y_probs)
                y_probs.columns es0.metrics none (bplArgOfOption es0.binaryPositiveLabel)
      | none =>
          mkClassificationEvalStats y_predicted y_true none es0.labels
            es0.metrics none (bplArgOfOption es0.binaryPositiveLabel)

/-- One row of the model-comparison results table built by
`MultiDataEvaluationUtil.compareModels` (eval_util.py): the model name and
one float per metric column, a missing value (NaN) modelled as `none`. -/
structure ResultRow where
  modelName : String
  values : List (Option ℚ)

/-- `allResultsDF.dropna(axis=1)` (eval_util.py line 554): the metric
columns that survive are exactly those with a value in every row. -/
def keptColumns (numCols : Nat) (rows : List ResultRow) : List Nat :=
  (List.range numCols).filter (fun j => rows.all (fun r => (r.values.getD j none).isSome))

/-- The pandas column mean with its default `skipna=True`: NaN entries are
ignored, and the mean of an all-NaN column is NaN. -/
def skipnaMean (vs : List (Option ℚ)) : Option ℚ :=
  let xs := vs.filterMap id
  if xs.length = 0 then none else some (xs.sum / xs.length)

/-- The column-`j` entries of the rows belonging to one model, as selected by
`groupby("modelName")`. -/
def modelColumn (rows : List ResultRow) (name : String) (j : Nat) : List (Option ℚ) :=
  (rows.filter (fun r => r.modelName = name)).map (fun r => r.values.getD j none)

/-- `allResultsDF.dropna(axis=1).groupby("modelName").mean()` (eval_util.py
lines 554-555): for a model name, the mean over that model's rows of each
kept column. -/
def meanResults (numCols : Nat) (rows : List ResultRow) (name : String) : List (Option ℚ) :=
  (keptColumns numCols rows).map (fun j => skipnaMean (modelColumn rows name j))

/-- The state of a `DataSplitterFractional` (data.py lines 102-108). -/
structure DataSplitterFractional where
  fractionalSizeOfFirstSet : ℚ
  shuffle : Bool
  randomSeed : Nat

/-- `DataSplitterFractional.__init__` (data.py lines 103-108): rejects a
fraction outside [0, 1]. -/
def mkDataSplitterFractional (fractionalSizeOfFirstSet : ℚ) (shuffle : Bool)
    (randomSeed : Nat) : Except String DataSplitterFractional :=
  if 0 ≤ fractionalSizeOfFirstSet ∧ fractionalSizeOfFirstSet ≤ 1 then
    .ok { fractionalSizeOfFirstSet := fractionalSizeOfFirstSet
          shuffle := shuffle, randomSeed := randomSeed }
  else
    .error "invalid fraction"

/-- `DataSplitterFractional.split` (data.py lines 110-122), at the level of
index lists: `splitIndex = int(numDataPoints * fraction)` (truncation equals
the floor for the non-negative fractions the constructor admits), the index
source is `rand.permutation(numDataPoints)` of a fresh
`np.random.RandomState(randomSeed)` when shuffling and `range(numDataPoints)`
otherwise, and the two parts are the complementary slices at `splitIndex`.
`permFn` is the deterministic model of NumPy's seeded permutation: a fresh
generator is created inside every call, so the result depends only on the
seed and the length. -/
def splitIndices (s : DataSplitterFractional) (permFn : Nat → Nat → List Nat)
    (numDataPoints : Nat) : List Nat × List Nat :=
  let splitIndex := ⌊(numDataPoints : ℚ) * s.fractionalSizeOfFirstSet⌋₊
  let indices := if s.shuffle then permFn s.randomSeed numDataPoints
    else List.range numDataPoints
  (indices.take splitIndex, indices.drop splitIndex)

/-- `DataSplitterFractional.split` applied to a dataset, with
`data.filterIndices` modelled as positional selection. -/
def splitData {α : Type} (s : DataSplitterFractional) (permFn : Nat → Nat → List Nat)
    (data : List α) : List α × List α :=
  let p := splitIndices s permFn data.length
  (p.1.filterMap (fun i => data.get? i), p.2.filterMap (fun i => data.get? i))

/-! Helper lemmas shared between the claim theorems. -/

theorem pyEq_refl (x : PyVal) : pyEq x x = true := by
  cases x <;> simp [pyEq]

theorem pyMem_of_mem {x : PyVal} {xs : List PyVal} (h : x ∈ xs) : pyMem x xs = true := by
  simp only [pyMem, List.any_eq_true]
  exact ⟨x, h, pyEq_refl x⟩

theorem pySetEq_refl (xs : List PyVal) : pySetEq xs xs = true := by
  simp only [pySetEq, Bool.and_eq_true, List.all_eq_true]
  exact ⟨fun x hx => pyMem_of_mem hx, fun x hx => pyMem_of_mem hx⟩

theorem mkClassificationEvalStats_ok {yp yt : List PyVal} {probs : Option DataFrame}
    {labels : List PyVal} {ms : List ClassificationMetric}
    {addl : Option (List ClassificationMetric)} {arg : BPLArg} {es : CEStats}
    (h : mkClassificationEvalStats yp yt probs labels ms addl arg = .ok es) :
    es = { y_predicted := yp, y_true := yt, y_predictedClassProbabilities := probs
           labels := labels, binaryPositiveLabel := resolveBinaryPositiveLabel labels arg
           metrics := ms ++ addl.getD [] } := by
  unfold mkClassificationEvalStats at h
  cases probs with
  | none =>
      simp only at h
      split at h
      · exact absurd h (by simp)
      · simp only [Except.ok.injEq] at h
        exact h.symm
  | some df =>
      simp only at h
      split at h
      · exact absurd h (by simp)
      · split at h
        · exact absurd h (by simp)
        · simp only [Except.ok.injEq] at h
          exact h.symm

/-- C8: when `ClassificationEvalStats` is constructed with the default
`binaryPositiveLabel=GUESS`, the problem is binary exactly when there are
two labels and one of the candidates `[1, True, "1", "True"]` occurs among
them (under Python equality); the positive label is then the first such
candidate in that order, and otherwise it is `None`. -/
theorem C8_guess_resolution (y_predicted y_true : List PyVal)
    (probs : Option DataFrame) (labels : List PyVal)
    (metrics : List ClassificationMetric) (addl : Option (List ClassificationMetric))
    (es : CEStats)
    (h : mkClassificationEvalStats y_predicted y_true probs labels metrics addl .guess = .ok es) :
    es.binaryPositiveLabel =
      (if labels.length = 2 then
        if pyMem (.int 1) labels then some (.int 1)
        else if pyMem (.bool true) labels then some (.bool true)
        else if pyMem (.str "1") labels then some (.str "1")
        else if pyMem (.str "True") labels then some (.str "True")
        else none
      else none) ∧
    (es.isBinary = true ↔
      labels.length = 2 ∧ ∃ c ∈ binaryClassificationPositiveLabelCandidates, pyMem c labels) := by
  have hfields := mkClassificationEvalStats_ok h
  have hlab : es.binaryPositiveLabel = resolveBinaryPositiveLabel labels .guess := by
    rw [hfields]
  have hres : resolveBinaryPositiveLabel labels .guess =
      (if labels.length = 2 then
        if pyMem (.int 1) labels then some (.int 1)
        else if pyMem (.bool true) labels then some (.bool true)
        else if pyMem (.str "1") labels then some (.str "1")
        else if pyMem (.str "True") labels then some (.str "True")
        else none
      else none) := by
    unfold resolveBinaryPositiveLabel binaryClassificationPositiveLabelCandidates
    by_cases h2 : labels.length = 2
    · simp only [if_pos h2]
      by_cases c1 : pyMem (.int 1) labels <;>
        by_cases c2 : pyMem (.bool true) labels <;>
          by_cases c3 : pyMem (.str "1") labels <;>
            by_cases c4 : pyMem (.str "True") labels <;>
              simp [List.find?_cons, c1, c2, c3, c4]
    · simp only [if_neg h2]
  refine ⟨hlab.trans hres, ?_⟩
  unfold CEStats.isBinary
  rw [hlab]
  unfold resolveBinaryPositiveLabel
  by_cases h2 : labels.length = 2
  · simp only [if_pos h2, List.find?_isSome, List.any_eq_true]
    constructor
    · rintro ⟨c, hc, hmem⟩
      exact ⟨h2, c, hc, hmem⟩
    · rintro ⟨-, c, hc, hmem⟩
      exact ⟨c, hc, hmem⟩
  · simp only [if_neg h2, Option.isSome_none, Bool.false_eq_true, false_iff]
    rintro ⟨hl, -⟩
    exact absurd hl h2

/-- C8 witness. -/
theorem C8_guess_resolution_witness :
    ∃ es : CEStats,
      mkClassificationEvalStats [.bool true] [.bool true] none [.bool true, .bool false]
        [] none .guess = .ok es ∧
      es.binaryPositiveLabel = some (.int 1) := by
  refine ⟨_, rfl, ?_⟩
  have h := C8_guess_resolution [.bool true] [.bool true] none [.bool true, .bool false]
    [] none _ rfl
  rw [h.1]
  decide

theorem foldl_countsStep_zdm (l : List (Bool × Bool)) (c : BinaryClassificationCounts) :
    (l.foldl countsStep c).zeroDenominatorMetricValue = c.zeroDenominatorMetricValue := by
  induction l generalizing c with
  | nil => rfl
  | cons pg l ih =>
      rw [List.foldl_cons, ih]
      unfold countsStep
      rcases pg with ⟨p, g⟩
      cases p <;> cases g <;> rfl

theorem foldl_countsStep_tp (l : List (Bool × Bool)) (c : BinaryClassificationCounts) :
    (l.foldl countsStep c).tp = c.tp + l.countP (fun pg => pg.1 && pg.2) := by
  induction l generalizing c with
  | nil => simp
  | cons pg l ih =>
      rw [List.foldl_cons, ih, List.countP_cons]
      unfold countsStep
      rcases pg with ⟨p, g⟩
      cases p <;> cases g <;> (simp; try omega)

theorem foldl_countsStep_fn (l : List (Bool × Bool)) (c : BinaryClassificationCounts) :
    (l.foldl countsStep c).fn = c.fn + l.countP (fun pg => !pg.1 && pg.2) := by
  induction l generalizing c with
  | nil => simp
  | cons pg l ih =>
      rw [List.foldl_cons, ih, List.countP_cons]
      unfold countsStep
      rcases pg with ⟨p, g⟩
      cases p <;> cases g <;> (simp; try omega)

theorem foldl_countsStep_fp (l : List (Bool × Bool)) (c : BinaryClassificationCounts) :
    (l.foldl countsStep c).fp = c.fp + l.countP (fun pg => pg.1 && !pg.2) := by
  induction l generalizing c with
  | nil => simp
  | cons pg l ih =>
      rw [List.foldl_cons, ih, List.countP_cons]
      unfold countsStep
      rcases pg with ⟨p, g⟩
      cases p <;> cases g <;> (simp; try omega)

theorem foldl_countsStep_tn (l : List (Bool × Bool)) (c : BinaryClassificationCounts) :
    (l.foldl countsStep c).tn = c.tn + l.countP (fun pg => !pg.1 && !pg.2) := by
  induction l generalizing c with
  | nil => simp
  | cons pg l ih =>
      rw [List.foldl_cons, ih, List.countP_cons]
      unfold countsStep
      rcases pg with ⟨p, g⟩
      cases p <;> cases g <;> (simp; try omega)

theorem mkCounts_zdm (preds gts : List Bool) (zdm : ℚ) :
    (mkBinaryClassificationCounts preds gts zdm).zeroDenominatorMetricValue = zdm := by
  unfold mkBinaryClassificationCounts
  rw [foldl_countsStep_zdm]

/-- C9: the precision, recall and F1 accessors of `BinaryClassificationCounts`
are total: whenever the respective denominator is zero they return the
stored `zeroDenominatorMetricValue` instead of dividing, and otherwise they
return the exact quotient. -/
theorem C9_counts_metrics_total (preds gts : List Bool) (zdm : ℚ) :
    ((mkBinaryClassificationCounts preds gts zdm).tp
        + (mkBinaryClassificationCounts preds gts zdm).fp = 0 →
      (mkBinaryClassificationCounts preds gts zdm).getPrecision = zdm) ∧
    ((mkBinaryClassificationCounts preds gts zdm).tp
        + (mkBinaryClassificationCounts preds gts zdm).fp ≠ 0 →
      (mkBinaryClassificationCounts preds gts zdm).getPrecision =
        ((mkBinaryClassificationCounts preds gts zdm).tp : ℚ) /
          (((mkBinaryClassificationCounts preds gts zdm).tp : ℚ)
            + ((mkBinaryClassificationCounts preds gts zdm).fp : ℚ))) ∧
    ((mkBinaryClassificationCounts preds gts zdm).tp
        + (mkBinaryClassificationCounts preds gts zdm).fn = 0 →
      (mkBinaryClassificationCounts preds gts zdm).getRecall = zdm) ∧
    ((mkBinaryClassificationCounts preds gts zdm).tp
        + (mkBinaryClassificationCounts preds gts zdm).fn ≠ 0 →
      (mkBinaryClassificationCounts preds gts zdm).getRecall =
        ((mkBinaryClassificationCounts preds gts zdm).tp : ℚ) /
          (((mkBinaryClassificationCounts preds gts zdm).tp : ℚ)
            + ((mkBinaryClassificationCounts preds gts zdm).fn : ℚ))) ∧
    ((mkBinaryClassificationCounts preds gts zdm).tp
        + (mkBinaryClassificationCounts preds gts zdm).fp
        + (mkBinaryClassificationCounts preds gts zdm).fn = 0 →
      (mkBinaryClassificationCounts preds gts zdm).getF1 = zdm) ∧
    ((mkBinaryClassificationCounts preds gts zdm).tp
        + (mkBinaryClassificationCounts preds gts zdm).fp
        + (mkBinaryClassificationCounts preds gts zdm).fn ≠ 0 →
      (mkBinaryClassificationCounts preds gts zdm).getF1 =
        ((mkBinaryClassificationCounts preds gts zdm).tp : ℚ) /
          (((mkBinaryClassificationCounts preds gts zdm).tp : ℚ)
            + (1 / 2) * (((mkBinaryClassificationCounts preds gts zdm).fp : ℚ)
              + ((mkBinaryClassificationCounts preds gts zdm).fn : ℚ)))) := by
  set c := mkBinaryClassificationCounts preds gts zdm with hc
  have hz : c.zeroDenominatorMetricValue = zdm := by
    rw [hc]; exact mkCounts_zdm preds gts zdm
  unfold BinaryClassificationCounts.getPrecision BinaryClassificationCounts.getRecall
    BinaryClassificationCounts.getF1 BinaryClassificationCounts.frac
  refine ⟨?_, ?_, ?_, ?_, ?_, ?_⟩
  · intro h0
    have : ((c.tp : ℚ) + c.fp) = 0 := by
      have h1 : c.tp = 0 := by omega
      have h2 : c.fp = 0 := by omega
      rw [h1, h2]; norm_num
    rw [if_pos this, hz]
  · intro h0
    have : ((c.tp : ℚ) + c.fp) ≠ 0 := by
      intro habs
      have : ((c.tp + c.fp : ℕ) : ℚ) = 0 := by push_cast; linarith
      exact h0 (Nat.cast_eq_zero.mp this)
    rw [if_neg this]
  · intro h0
    have : ((c.tp : ℚ) + c.fn) = 0 := by
      have h1 : c.tp = 0 := by omega
      have h2 : c.fn = 0 := by omega
      rw [h1, h2]; norm_num
    rw [if_pos this, hz]
  · intro h0
    have : ((c.tp : ℚ) + c.fn) ≠ 0 := by
      intro habs
      have : ((c.tp + c.fn : ℕ) : ℚ) = 0 := by push_cast; linarith
      exact h0 (Nat.cast_eq_zero.mp this)
    rw [if_neg this]
  · intro h0
    have : ((c.tp : ℚ) + (1 / 2) * (c.fp + c.fn)) = 0 := by
      have h1 : c.tp = 0 := by omega
      have h2 : c.fp = 0 := by omega
      have h3 : c.fn = 0 := by omega
      rw [h1, h2, h3]; norm_num
    rw [if_pos this, hz]
  · intro h0
    have : ((c.tp : ℚ) + (1 / 2) * (c.fp + c.fn)) ≠ 0 := by
      intro habs
      have htp : (0 : ℚ) ≤ c.tp := Nat.cast_nonneg _
      have hfp : (0 : ℚ) ≤ c.fp := Nat.cast_nonneg _
      have hfn : (0 : ℚ) ≤ c.fn := Nat.cast_nonneg _
      have h1 : (c.tp : ℚ) = 0 := by linarith
      have h2 : (c.fp : ℚ) = 0 := by linarith
      have h3 : (c.fn : ℚ) = 0 := by linarith
      exact h0 (by
        have := Nat.cast_eq_zero.mp h1
        have := Nat.cast_eq_zero.mp h2
        have := Nat.cast_eq_zero.mp h3
        omega)
    rw [if_neg this]

/-- C9 witness. -/
theorem C9_counts_metrics_total_witness :
    (mkBinaryClassificationCounts [] [] 5).getPrecision = 5 ∧
    (mkBinaryClassificationCounts [true, false] [true, true] 0).getRecall = 1 / 2 := by
  constructor
  · exact (C9_counts_metrics_total [] [] 5).1 (by decide)
  · have h := (C9_counts_metrics_total [true, false] [true, true] 0).2.2.2.1 (by decide)
    rw [h]
    norm_num [mkBinaryClassificationCounts, countsStep]

/-- C10: `DataSplitterFractional.split` is deterministic.  A fresh
`np.random.RandomState(randomSeed)` is created inside every call to `split`,
so the permutation (modelled by the fixed deterministic function `permFn` of
seed and length) depends only on the constructor arguments, and two
splitters with equal arguments produce identical partitions on equal data. -/
theorem C10_split_deterministic {α : Type} (permFn : Nat → Nat → List Nat)
    (s1 s2 : DataSplitterFractional) (data1 data2 : List α)
    (hf : s1.fractionalSizeOfFirstSet = s2.fractionalSizeOfFirstSet)
    (hs : s1.shuffle = s2.shuffle) (hr : s1.randomSeed = s2.randomSeed)
    (hd : data1 = data2) :
    splitData s1 permFn data1 = splitData s2 permFn data2 := by
  cases s1
  cases s2
  simp only at hf hs hr
  subst hf
  subst hs
  subst hr
  subst hd
  rfl

/-- C10 witness. -/
theorem C10_split_deterministic_witness :
    splitData { fractionalSizeOfFirstSet := 1 / 2, shuffle := true, randomSeed := 42 }
      (fun s n => List.range (s - s + n)) [10, 20, 30] =
    splitData { fractionalSizeOfFirstSet := 1 / 2, shuffle := true, randomSeed := 42 }
      (fun s n => List.range (s - s + n)) [10, 20, 30] :=
  C10_split_deterministic (fun s n => List.range (s - s + n))
    { fractionalSizeOfFirstSet := 1 / 2, shuffle := true, randomSeed := 42 }
    { fractionalSizeOfFirstSet := 1 / 2, shuffle := true, randomSeed := 42 }
    [10, 20, 30] [10, 20, 30] rfl rfl rfl rfl

/-- C7: for a dataset of `n` points and an admissible fraction `f`, the split
puts `floor(n * f)` indices in the first part and the remaining
`n - floor(n * f)` in the second; together the two parts are the slices of a
single permutation of `0..n-1` (of `range(n)` when not shuffling), so every
index occurs exactly once across the two parts; and the constructor rejects
any fraction outside `[0, 1]`. -/
theorem C7_fractional_split (f : ℚ) (sh : Bool) (seed : Nat)
    (s : DataSplitterFractional) (permFn : Nat → Nat → List Nat) (n : Nat)
    (hmk : mkDataSplitterFractional f sh seed = .ok s)
    (hperm : ∀ m, (permFn seed m).Perm (List.range m)) :
    (splitIndices s permFn n).1.length = ⌊(n : ℚ) * f⌋₊ ∧
    (splitIndices s permFn n).2.length = n - ⌊(n : ℚ) * f⌋₊ ∧
    ((splitIndices s permFn n).1 ++ (splitIndices s permFn n).2).Perm (List.range n) ∧
    (∀ i, i < n → ((splitIndices s permFn n).1 ++ (splitIndices s permFn n).2).count i = 1) ∧
    (sh = false → (splitIndices s permFn n).1 ++ (splitIndices s permFn n).2 = List.range n) ∧
    (∀ g : ℚ, ¬ (0 ≤ g ∧ g ≤ 1) → ∃ e, mkDataSplitterFractional g sh seed = .error e) := by
  unfold mkDataSplitterFractional at hmk
  split at hmk
  case isFalse => exact absurd hmk (by simp)
  case isTrue hran =>
  simp only [Except.ok.injEq] at hmk
  obtain ⟨hf0, hf1⟩ := hran
  have hsf : s.fractionalSizeOfFirstSet = f := by rw [← hmk]
  have hss : s.shuffle = sh := by rw [← hmk]
  have hsr : s.randomSeed = seed := by rw [← hmk]
  have hfloor : ⌊(n : ℚ) * f⌋₊ ≤ n := by
    have h1 : (n : ℚ) * f ≤ (n : ℚ) := by
      calc (n : ℚ) * f ≤ (n : ℚ) * 1 := by
            exact mul_le_mul_of_nonneg_left hf1 (Nat.cast_nonneg n)
        _ = (n : ℚ) := mul_one _
    calc ⌊(n : ℚ) * f⌋₊ ≤ ⌊(n : ℚ)⌋₊ := Nat.floor_le_floor h1
      _ = n := Nat.floor_natCast n
  unfold splitIndices
  rw [hsf, hss, hsr]
  set indices := (if sh = true then permFn seed n else List.range n) with hind
  have hindlen : indices.length = n := by
    rw [hind]
    cases sh with
    | true => simpa using (hperm n).length_eq
    | false => simp
  have hindperm : indices.Perm (List.range n) := by
    rw [hind]
    cases sh with
    | true => simpa using hperm n
    | false => simp
  refine ⟨?_, ?_, ?_, ?_, ?_, ?_⟩
  · simp only [List.length_take, hindlen]
    omega
  · simp only [List.length_drop, hindlen]
  · rw [List.take_append_drop]
    exact hindperm
  · intro i hi
    rw [List.take_append_drop]
    rw [hindperm.count_eq i]
    exact List.count_eq_one_of_mem (List.nodup_range n) (List.mem_range.mpr hi)
  · intro hshf
    rw [List.take_append_drop, hind, hshf]
    simp
  · intro g hg
    unfold mkDataSplitterFractional
    rw [if_neg hg]
    exact ⟨_, rfl⟩

/-- C7 witness. -/
theorem C7_fractional_split_witness :
    (splitIndices { fractionalSizeOfFirstSet := 3 / 10, shuffle := true, randomSeed := 7 }
      (fun _ m => (List.range m).reverse) 10).1.length = 3 ∧
    (∃ e, mkDataSplitterFractional (3 / 2) true 7 = .error e) := by
  have hmk : mkDataSplitterFractional (3 / 10) true 7 =
      .ok { fractionalSizeOfFirstSet := 3 / 10, shuffle := true, randomSeed := 7 } := by
    unfold mkDataSplitterFractional
    rw [if_pos (by norm_num)]
  have h := C7_fractional_split (3 / 10) true 7
    { fractionalSizeOfFirstSet := 3 / 10, shuffle := true, randomSeed := 7 }
    (fun _ m => (List.range m).reverse) 10 hmk
    (fun m => List.reverse_perm (List.range m))
  refine ⟨?_, h.2.2.2.2.2 (3 / 2) (by norm_num)⟩
  rw [h.1]
  have h3 : ((10 : ℕ) : ℚ) * (3 / 10) = 3 := by norm_num
  rw [h3]
  exact Nat.floor_ofNat 3

theorem mapM_except_ok {α β : Type} {f : α → Except String β} {g : α → β}
    (hf : ∀ x, f x = .ok (g x)) : ∀ l : List α, l.mapM f = .ok (l.map g)
  | [] => rfl
  | a :: l => by
      rw [List.mapM_cons, hf a, mapM_except_ok hf l]
      rfl

theorem linspace_zero_one :
    linspace 0 1 101 = (List.range 101).map (fun i : ℕ => (i : ℚ) / 100) := by
  unfold linspace
  apply List.map_congr_left
  intro a _
  norm_num

theorem getD_map_range {β : Type} (f : ℕ → β) {n i : ℕ} (hi : i < n) (d : β) :
    ((List.range n).map f).getD i d = f i := by
  rw [List.getD_eq_getElem _ _ (by rw [List.length_map, List.length_range]; exact hi)]
  rw [List.getElem_map, List.getElem_range]

theorem fromEvalStats_ok {es : CEStats} {pos : PyVal} {df : DataFrame}
    (hpos : es.binaryPositiveLabel = some pos)
    (hdf : es.y_predictedClassProbabilities = some df) (t : ℚ) :
    fromEvalStats es t = .ok (fromProbabilityThreshold (df.col pos) t
      (es.y_true.map (fun g => pyEq g pos))) := by
  unfold fromEvalStats
  rw [hpos, hdf]

/-- C1: the probability-threshold variation sweep runs over exactly the 101
equally spaced thresholds i/100 for i = 0..100, and at each threshold the
confusion counts classify a sample as a positive prediction exactly when its
positive-class probability is at least the threshold: tp counts the samples
with probability at or above the threshold whose true label is the positive
one, and tn, fp, fn the three complementary combinations. -/
theorem C1_threshold_sweep (es : CEStats) (pos : PyVal) (df : DataFrame)
    (v : ThresholdVariationData)
    (hpos : es.binaryPositiveLabel = some pos)
    (hdf : es.y_predictedClassProbabilities = some df)
    (hv : mkThresholdVariationData es = .ok v) :
    v.thresholds.length = 101 ∧ v.counts.length = 101 ∧
    (∀ i, i < 101 → v.thresholds.getD i 0 = (i : ℚ) / 100) ∧
    (∀ i, i < 101 →
      (v.counts.getD i ⟨0, 0, 0, 0, 0⟩).tp =
        ((df.col pos).zip es.y_true).countP
          (fun pg => decide ((i : ℚ) / 100 ≤ pg.1) && pyEq pg.2 pos) ∧
      (v.counts.getD i ⟨0, 0, 0, 0, 0⟩).fn =
        ((df.col pos).zip es.y_true).countP
          (fun pg => !decide ((i : ℚ) / 100 ≤ pg.1) && pyEq pg.2 pos) ∧
      (v.counts.getD i ⟨0, 0, 0, 0, 0⟩).fp =
        ((df.col pos).zip es.y_true).countP
          (fun pg => decide ((i : ℚ) / 100 ≤ pg.1) && !pyEq pg.2 pos) ∧
      (v.counts.getD i ⟨0, 0, 0, 0, 0⟩).tn =
        ((df.col pos).zip es.y_true).countP
          (fun pg => !decide ((i : ℚ) / 100 ≤ pg.1) && !pyEq pg.2 pos)) := by
  have hmap : List.mapM (fun t => fromEvalStats es t) (linspace 0 1 101) =
      .ok ((linspace 0 1 101).map (fun t => fromProbabilityThreshold (df.col pos) t
        (es.y_true.map (fun g => pyEq g pos)))) :=
    mapM_except_ok (fromEvalStats_ok hpos hdf) (linspace 0 1 101)
  have hok : mkThresholdVariationData es =
      .ok ⟨linspace 0 1 101,
        (linspace 0 1 101).map (fun t => fromProbabilityThreshold (df.col pos) t
          (es.y_true.map (fun g => pyEq g pos)))⟩ := by
    unfold mkThresholdVariationData
    simp only [hmap]
    rfl
  rw [hok] at hv
  have hform := (Except.ok.injEq _ _).mp hv
  subst hform
  simp only
  have hts : linspace 0 1 101 = (List.range 101).map (fun j : ℕ => (j : ℚ) / 100) :=
    linspace_zero_one
  have htslen : (linspace 0 1 101).length = 101 := by
    rw [hts, List.length_map, List.length_range]
  have htsget : ∀ i, i < 101 → (linspace 0 1 101).getD i 0 = (i : ℚ) / 100 := by
    intro i hi
    rw [hts]
    exact getD_map_range _ hi 0
  have hzip : ∀ t : ℚ,
      ((df.col pos).map (fun p => decide (t ≤ p))).zip
        (es.y_true.map (fun g => pyEq g pos)) =
      ((df.col pos).zip es.y_true).map
        (Prod.map (fun p => decide (t ≤ p)) (fun g => pyEq g pos)) := by
    intro t
    exact List.zip_map (fun p => decide (t ≤ p)) (fun g => pyEq g pos) _ _
  refine ⟨htslen, by rw [List.length_map]; exact htslen, htsget, ?_⟩
  intro i hi
  have hcget :
      ((linspace 0 1 101).map (fun t => fromProbabilityThreshold (df.col pos) t
        (es.y_true.map (fun g => pyEq g pos)))).getD i ⟨0, 0, 0, 0, 0⟩ =
      fromProbabilityThreshold (df.col pos) ((i : ℚ) / 100)
        (es.y_true.map (fun g => pyEq g pos)) := by
    rw [hts, List.map_map]
    exact getD_map_range _ hi _
  rw [hcget]
  unfold fromProbabilityThreshold mkBinaryClassificationCounts
  rw [hzip]
  have hcomp : ∀ (p : Bool × Bool → Bool),
      List.countP p (((df.col pos).zip es.y_true).map
        (Prod.map (fun q => decide ((i : ℚ) / 100 ≤ q)) (fun g => pyEq g pos))) =
      List.countP (fun pg => p (decide ((i : ℚ) / 100 ≤ pg.1), pyEq pg.2 pos))
        ((df.col pos).zip es.y_true) := by
    intro p
    rw [List.countP_map]
    apply List.countP_congr
    intro pg _
    rcases pg with ⟨a, b⟩
    rfl
  refine ⟨?_, ?_, ?_, ?_⟩
  · rw [foldl_countsStep_tp, hcomp]
    simp
  · rw [foldl_countsStep_fn, hcomp]
    simp
  · rw [foldl_countsStep_fp, hcomp]
    simp
  · rw [foldl_countsStep_tn, hcomp]
    simp

/-- C1 witness. -/
theorem C1_threshold_sweep_witness :
    ∃ v : ThresholdVariationData,
      mkThresholdVariationData
        ⟨[], [], some ⟨[.int 0, .int 1], []⟩, [.int 0, .int 1], some (.int 1), []⟩ = .ok v ∧
      v.thresholds.length = 101 ∧ v.thresholds.getD 25 0 = 1 / 4 := by
  refine ⟨_, rfl, ?_, ?_⟩
  · exact (C1_threshold_sweep
      ⟨[], [], some ⟨[.int 0, .int 1], []⟩, [.int 0, .int 1], some (.int 1), []⟩
      (.int 1) ⟨[.int 0, .int 1], []⟩ _ rfl rfl rfl).1
  · have h := (C1_threshold_sweep
      ⟨[], [], some ⟨[.int 0, .int 1], []⟩, [.int 0, .int 1], some (.int 1), []⟩
      (.int 1) ⟨[.int 0, .int 1], []⟩ _ rfl rfl rfl).2.2.1 25 (by norm_num)
    rw [h]
    norm_num

theorem ite_lt_max (r c : ℚ) : (if r < c then c else r) = max r c := by
  rcases lt_or_le r c with h | h
  · rw [if_pos h, max_eq_right h.le]
  · rw [if_neg (not_lt.mpr h), max_eq_left h]

theorem rfp_foldl_some (minP : ℚ) (l : List BinaryClassificationCounts) :
    ∀ r : ℚ, l.foldl (recallForPrecisionStep minP) (some r) =
      some (((l.filter (fun c => decide (minP ≤ c.getPrecision))).map
        BinaryClassificationCounts.getRecall).foldl max r) := by
  induction l with
  | nil => intro r; rfl
  | cons c l ih =>
      intro r
      rw [List.foldl_cons]
      by_cases hq : minP ≤ c.getPrecision
      · have hstep : recallForPrecisionStep minP (some r) c = some (max r c.getRecall) := by
          unfold recallForPrecisionStep
          rw [if_pos hq]
          show (if r < c.getRecall then some c.getRecall else some r) = some (max r c.getRecall)
          rw [← ite_lt_max r c.getRecall]
          split <;> rfl
        rw [hstep, ih (max r c.getRecall)]
        rw [List.filter_cons_of_pos (by simpa using hq), List.map_cons, List.foldl_cons]
      · have hstep : recallForPrecisionStep minP (some r) c = some r := by
          unfold recallForPrecisionStep
          rw [if_neg hq]
        rw [hstep, ih r, List.filter_cons_of_neg (by simpa using hq)]

theorem rfp_foldl_none (minP : ℚ) (l : List BinaryClassificationCounts) :
    l.foldl (recallForPrecisionStep minP) none =
      ((l.filter (fun c => decide (minP ≤ c.getPrecision))).map
        BinaryClassificationCounts.getRecall).max? := by
  induction l with
  | nil => rfl
  | cons c l ih =>
      rw [List.foldl_cons]
      by_cases hq : minP ≤ c.getPrecision
      · have hstep : recallForPrecisionStep minP none c = some c.getRecall := by
          unfold recallForPrecisionStep
          rw [if_pos hq]
        rw [hstep, rfp_foldl_some minP l c.getRecall]
        rw [List.filter_cons_of_pos (by simpa using hq), List.map_cons]
        rfl
      · have hstep : recallForPrecisionStep minP none c = none := by
          unfold recallForPrecisionStep
          rw [if_neg hq]
        rw [hstep, ih, List.filter_cons_of_neg (by simpa using hq)]

/-- C2: `BinaryClassificationMetricRecallForPrecision(p)` returns the maximum
recall over the entries of the probability-threshold variation data whose
precision is at least `p`, and NaN (modelled as `none`) when no entry of the
sweep reaches precision `p`. -/
theorem C2_recall_for_precision (minP : ℚ) (es : CEStats) (v : ThresholdVariationData)
    (hv : mkThresholdVariationData es = .ok v) :
    ∃ r, recallForPrecisionComputeValue minP es = .ok r ∧
      (r = none ↔ ∀ c ∈ v.counts, ¬ (minP ≤ c.getPrecision)) ∧
      (∀ x, r = some x →
        (∃ c ∈ v.counts, minP ≤ c.getPrecision ∧ c.getRecall = x) ∧
        ∀ c ∈ v.counts, minP ≤ c.getPrecision → c.getRecall ≤ x) := by
  have hok : recallForPrecisionComputeValue minP es =
      .ok (v.counts.foldl (recallForPrecisionStep minP) none) := by
    unfold recallForPrecisionComputeValue
    rw [hv]
    rfl
  refine ⟨_, hok, ?_, ?_⟩
  · rw [rfp_foldl_none]
    rw [List.max?_eq_none_iff, List.map_eq_nil_iff, List.filter_eq_nil_iff]
    constructor
    · intro h c hc hq
      exact h c hc (by simpa using hq)
    · intro h c hc
      simpa using h c hc
  · intro x hx
    rw [rfp_foldl_none] at hx
    haveI : Std.Antisymm (fun x1 x2 : ℚ => x1 ≤ x2) :=
      ⟨fun h1 h2 => le_antisymm h1 h2⟩
    have hmax := (List.max?_eq_some_iff (fun a : ℚ => le_refl a)
      (fun a b => max_choice a b) (fun a b c => max_le_iff)).mp hx
    obtain ⟨hmem, hub⟩ := hmax
    constructor
    · obtain ⟨c, hc, hcx⟩ := List.mem_map.mp hmem
      obtain ⟨hcl, hcq⟩ := List.mem_filter.mp hc
      exact ⟨c, hcl, by simpa using hcq, hcx⟩
    · intro c hc hq
      exact hub c.getRecall (List.mem_map.mpr
        ⟨c, List.mem_filter.mpr ⟨hc, by simpa using hq⟩, rfl⟩)

theorem fromProbabilityThreshold_nil (probs : List ℚ) (t : ℚ) :
    fromProbabilityThreshold probs t [] =
      { zeroDenominatorMetricValue := 0, tp := 0, tn := 0, fp := 0, fn := 0 } := by
  unfold fromProbabilityThreshold mkBinaryClassificationCounts
  rw [List.zip_nil_right]
  rfl

/-- C2 witness. -/
theorem C2_recall_for_precision_witness :
    recallForPrecisionComputeValue (1 / 2)
      ⟨[], [], some ⟨[.int 0, .int 1], []⟩, [.int 0, .int 1], some (.int 1), []⟩ =
      .ok none := by
  have hmapM : List.mapM (fun t => fromEvalStats
        ⟨[], [], some ⟨[.int 0, .int 1], []⟩, [.int 0, .int 1], some (.int 1), []⟩ t)
      (linspace 0 1 101) =
      .ok ((linspace 0 1 101).map (fun t => fromProbabilityThreshold [] t [])) :=
    @mapM_except_ok ℚ BinaryClassificationCounts
      (fun t => fromEvalStats
        ⟨[], [], some ⟨[.int 0, .int 1], []⟩, [.int 0, .int 1], some (.int 1), []⟩ t)
      (fun t => fromProbabilityThreshold [] t []) (fun t => rfl) (linspace 0 1 101)
  have hv : mkThresholdVariationData
      ⟨[], [], some ⟨[.int 0, .int 1], []⟩, [.int 0, .int 1], some (.int 1), []⟩ =
      .ok ⟨linspace 0 1 101,
        (linspace 0 1 101).map (fun t => fromProbabilityThreshold [] t [])⟩ := by
    unfold mkThresholdVariationData
    simp only [hmapM]
    rfl
  obtain ⟨r, hok, hiff, -⟩ := C2_recall_for_precision (1 / 2)
    ⟨[], [], some ⟨[.int 0, .int 1], []⟩, [.int 0, .int 1], some (.int 1), []⟩ _ hv
  have hall : ∀ c ∈ ((linspace 0 1 101).map (fun t => fromProbabilityThreshold [] t [])),
      ¬ ((1 : ℚ) / 2 ≤ c.getPrecision) := by
    intro c hc
    obtain ⟨t, -, hct⟩ := List.mem_map.mp hc
    rw [← hct, fromProbabilityThreshold_nil]
    norm_num [BinaryClassificationCounts.getPrecision, BinaryClassificationCounts.frac]
  rw [hok, hiff.mpr hall]

theorem metricsDict_aux (yt yp : List PyVal) (ms : List ClassificationMetric) :
    ∀ d : List (String × ℚ),
      (List.foldlM (fun d (m : ClassificationMetric) =>
        if !m.requiresProbabilities || (none : Option DataFrame).isSome then
          do
            let v ← m.computeValue yt yp none
            pure (d ++ [(m.name, v)])
        else
          pure d) d ms : Except String (List (String × ℚ))) =
      .ok (d ++ (ms.filter (fun m => !m.requiresProbabilities)).map
        (fun m => (m.name, m.computeValueImpl yt yp none))) := by
  induction ms with
  | nil =>
      intro d
      simp only [List.foldlM_nil, List.filter_nil, List.map_nil, List.append_nil]
      rfl
  | cons m ms ih =>
      intro d
      rw [List.foldlM_cons]
      by_cases hreq : m.requiresProbabilities = true
      · rw [if_neg (by simp [hreq])]
        show (List.foldlM _ d ms : Except String (List (String × ℚ))) = _
        rw [ih d, List.filter_cons_of_neg (by simp [hreq])]
      · rw [if_pos (by simp [hreq])]
        have hcv : m.computeValue yt yp none = .ok (m.computeValueImpl yt yp none) := by
          unfold ClassificationMetric.computeValue
          rw [if_neg (by simp [hreq])]
        rw [hcv]
        show (List.foldlM _ (d ++ [(m.name, m.computeValueImpl yt yp none)]) ms :
          Except String (List (String × ℚ))) = _
        rw [ih (d ++ [(m.name, m.computeValueImpl yt yp none)])]
        rw [List.filter_cons_of_pos (by simp [hreq]), List.map_cons, List.append_assoc]
        rfl

/-- C3: a metric that requires class probabilities is never evaluated without
them: `computeValue` raises exactly when the metric requires probabilities
and none were passed; constructing `ClassificationEvalStats` with an
additional metric that requires probabilities while none were provided
raises; and `metricsDict` silently omits (rather than raising on) the
probability-requiring metrics when probabilities are unavailable, computing
exactly the remaining metrics. -/
theorem C3_probability_guard :
    (∀ (m : ClassificationMetric) (yt yp : List PyVal) (probs : Option DataFrame),
      (∃ e, m.computeValue yt yp probs = .error e) ↔
        (m.requiresProbabilities = true ∧ probs = none)) ∧
    (∀ (yp yt labels : List PyVal) (ms ams : List ClassificationMetric)
        (arg : BPLArg) (m : ClassificationMetric),
      m ∈ ams → m.requiresProbabilities = true →
      ∃ e, mkClassificationEvalStats yp yt none labels ms (some ams) arg = .error e) ∧
    (∀ es : CEStats, es.y_predictedClassProbabilities = none →
      es.metricsDict = .ok ((es.metrics.filter (fun m => !m.requiresProbabilities)).map
        (fun m => (m.name, m.computeValueImpl es.y_true es.y_predicted none)))) := by
  refine ⟨?_, ?_, ?_⟩
  · intro m yt yp probs
    unfold ClassificationMetric.computeValue
    by_cases hc : (m.requiresProbabilities && probs.isNone) = true
    · rw [if_pos hc]
      simp only [Bool.and_eq_true, Option.isNone_iff_eq_none] at hc
      exact ⟨fun _ => hc, fun _ => ⟨_, rfl⟩⟩
    · rw [if_neg hc]
      simp only [Bool.and_eq_true, Option.isNone_iff_eq_none] at hc
      constructor
      · rintro ⟨e, he⟩
        exact absurd he (by simp)
      · intro h
        exact absurd h hc
  · intro yp yt labels ms ams arg m hm hreq
    unfold mkClassificationEvalStats
    simp only
    rw [if_pos]
    · exact ⟨_, rfl⟩
    · simp only [Option.getD_some, Option.isNone_none, Bool.true_and, List.any_eq_true]
      exact ⟨m, hm, hreq⟩
  · intro es hnone
    obtain ⟨yp, yt, probs, labels, bpl, ms⟩ := es
    simp only at hnone
    subst hnone
    unfold CEStats.metricsDict
    simp only
    exact metricsDict_aux yt yp ms []

/-- C3 witness. -/
theorem C3_probability_guard_witness :
    (∃ e, ClassificationMetric.computeValue
      ⟨"geoMeanTrueClassProb", true, fun _ _ _ => 0⟩ [] [] none = .error e) ∧
    (∃ e, mkClassificationEvalStats [] [] none []
      [] (some [⟨"geoMeanTrueClassProb", true, fun _ _ _ => 0⟩]) .guess = .error e) ∧
    CEStats.metricsDict ⟨[], [], none, [], none,
      [⟨"accuracy", false, fun _ _ _ => 1⟩, ⟨"geoMeanTrueClassProb", true, fun _ _ _ => 0⟩]⟩ =
      .ok [("accuracy", 1)] := by
  refine ⟨?_, ?_, ?_⟩
  · exact (C3_probability_guard.1 ⟨"geoMeanTrueClassProb", true, fun _ _ _ => 0⟩
      [] [] none).mpr ⟨rfl, rfl⟩
  · exact C3_probability_guard.2.1 [] [] [] []
      [⟨"geoMeanTrueClassProb", true, fun _ _ _ => 0⟩] .guess
      ⟨"geoMeanTrueClassProb", true, fun _ _ _ => 0⟩ (List.mem_singleton.mpr rfl) rfl
  · have h := C3_probability_guard.2.2 ⟨[], [], none, [], none,
      [⟨"accuracy", false, fun _ _ _ => 1⟩, ⟨"geoMeanTrueClassProb", true, fun _ _ _ => 0⟩]⟩ rfl
    rw [h]
    rfl

theorem log_prod_of_pos (xs : List ℝ) (hx : ∀ x ∈ xs, 0 < x) :
    Real.log xs.prod = (xs.map Real.log).sum := by
  induction xs with
  | nil => simp
  | cons a l ih =>
      rw [List.prod_cons, List.map_cons, List.sum_cons]
      have ha : 0 < a := hx a (by simp)
      have hl : ∀ x ∈ l, 0 < x := fun x hxl => hx x (by simp [hxl])
      have hpl : 0 < l.prod := List.prod_pos hl
      rw [Real.log_mul (ne_of_gt ha) (ne_of_gt hpl), ih hl]

theorem length_mul_le_sum (xs : List ℝ) (a : ℝ) (h : ∀ x ∈ xs, a ≤ x) :
    (xs.length : ℝ) * a ≤ xs.sum := by
  induction xs with
  | nil => simp
  | cons b l ih =>
      rw [List.length_cons, List.sum_cons]
      have hb := h b (by simp)
      have hl := ih (fun x hx => h x (by simp [hx]))
      have hcast : ((l.length + 1 : ℕ) : ℝ) * a = (l.length : ℝ) * a + a := by
        push_cast
        ring
      rw [hcast]
      linarith

/-- C4: in the geometric-mean-of-true-class-probability metric, a sample
whose true class is missing from the probability-frame columns contributes
probability 0, every per-sample probability is floored at 1e-3 before the
logarithm, and the metric value equals the geometric mean of the floored
probabilities, hence is at least 1e-3. -/
theorem C4_geo_mean_true_class_prob (y_true : List PyVal) (df : DataFrame)
    (hn : y_true ≠ []) :
    (∀ i, i < y_true.length → df.hasCol (y_true.getD i (.int 0)) = false →
      (trueClassProbabilities y_true df).getD i 0 = 0) ∧
    (flooredTrueClassProbabilities y_true df =
      (trueClassProbabilities y_true df).map (fun p => max (1 / 1000) p)) ∧
    (geoMeanTrueClassProbability y_true df =
      geometricMean ((flooredTrueClassProbabilities y_true df).map (fun p : ℚ => (p : ℝ)))) ∧
    ((1 / 1000 : ℝ) ≤ geoMeanTrueClassProbability y_true df) := by
  have hmissing : ∀ i, i < y_true.length → df.hasCol (y_true.getD i (.int 0)) = false →
      (trueClassProbabilities y_true df).getD i 0 = 0 := by
    intro i hi hcol
    unfold trueClassProbabilities
    rw [getD_map_range _ hi 0]
    simp only [hcol]
    rfl
  set l : List ℚ := flooredTrueClassProbabilities y_true df with hl
  have hlb : ∀ p ∈ l, (1 / 1000 : ℚ) ≤ p := by
    intro p hp
    rw [hl] at hp
    unfold flooredTrueClassProbabilities at hp
    obtain ⟨q, -, hq⟩ := List.mem_map.mp hp
    rw [← hq]
    exact le_max_left _ _
  have hlen : l.length = y_true.length := by
    rw [hl]
    unfold flooredTrueClassProbabilities trueClassProbabilities
    rw [List.length_map, List.length_map, List.length_range]
  have hnpos : 0 < l.length := by
    rw [hlen]
    exact List.length_pos.mpr hn
  set lR : List ℝ := l.map (fun p : ℚ => (p : ℝ)) with hlR
  have hlRpos : ∀ x ∈ lR, 0 < x := by
    intro x hx
    rw [hlR] at hx
    obtain ⟨q, hq, hqx⟩ := List.mem_map.mp hx
    rw [← hqx]
    have := hlb q hq
    have h0 : (0 : ℚ) < 1 / 1000 := by norm_num
    exact_mod_cast lt_of_lt_of_le h0 this
  have hlRlb : ∀ x ∈ lR, ((1 / 1000 : ℚ) : ℝ) ≤ x := by
    intro x hx
    rw [hlR] at hx
    obtain ⟨q, hq, hqx⟩ := List.mem_map.mp hx
    rw [← hqx]
    exact_mod_cast hlb q hq
  have hlRlen : lR.length = l.length := by
    rw [hlR, List.length_map]
  have hprodpos : 0 < lR.prod := List.prod_pos hlRpos
  have hmaps : l.map (fun p : ℚ => Real.log (p : ℝ)) = lR.map Real.log := by
    rw [hlR, List.map_map]
    rfl
  have hS : (l.map (fun p : ℚ => Real.log (p : ℝ))).sum = Real.log lR.prod := by
    rw [hmaps, ← log_prod_of_pos lR hlRpos]
  have hSlen : (l.map (fun p : ℚ => Real.log (p : ℝ))).length = l.length := by
    rw [List.length_map]
  have hgeo : geoMeanTrueClassProbability y_true df =
      Real.exp (Real.log lR.prod / (l.length : ℝ)) := by
    unfold geoMeanTrueClassProbability
    show Real.exp (((flooredTrueClassProbabilities y_true df).map
        (fun p : ℚ => Real.log (p : ℝ))).sum /
      (((flooredTrueClassProbabilities y_true df).map
        (fun p : ℚ => Real.log (p : ℝ))).length : ℝ)) = _
    rw [← hl, hS, hSlen]
  have hmean : geometricMean lR = Real.exp (Real.log lR.prod / (l.length : ℝ)) := by
    unfold geometricMean
    rw [Real.rpow_def_of_pos hprodpos, hlRlen]
    rw [mul_one_div]
  refine ⟨hmissing, rfl, ?_, ?_⟩
  · rw [hgeo, hmean]
  · rw [hgeo]
    have hlow : ((l.length : ℝ)) * Real.log ((1 / 1000 : ℚ) : ℝ) ≤ Real.log lR.prod := by
      have hsum := length_mul_le_sum (lR.map Real.log) (Real.log ((1 / 1000 : ℚ) : ℝ)) ?_
      · rw [← log_prod_of_pos lR hlRpos] at hsum
        rw [List.length_map, hlRlen] at hsum
        exact hsum
      · intro x hx
        obtain ⟨y, hy, hyx⟩ := List.mem_map.mp hx
        rw [← hyx]
        exact Real.log_le_log (by norm_num) (hlRlb y hy)
    have hnR : (0 : ℝ) < (l.length : ℝ) := by exact_mod_cast hnpos
    have hdiv : Real.log ((1 / 1000 : ℚ) : ℝ) ≤ Real.log lR.prod / (l.length : ℝ) := by
      rw [le_div_iff₀ hnR]
      calc Real.log ((1 / 1000 : ℚ) : ℝ) * (l.length : ℝ)
          = (l.length : ℝ) * Real.log ((1 / 1000 : ℚ) : ℝ) := by ring
        _ ≤ Real.log lR.prod := hlow
    calc (1 / 1000 : ℝ) = Real.exp (Real.log ((1 / 1000 : ℚ) : ℝ)) := by
          rw [Real.exp_log (by norm_num)]
          norm_num
      _ ≤ Real.exp (Real.log lR.prod / (l.length : ℝ)) := Real.exp_le_exp.mpr hdiv

/-- C4 witness. -/
theorem C4_geo_mean_true_class_prob_witness :
    ([PyVal.int 0] ≠ ([] : List PyVal)) ∧
    (1 / 1000 : ℝ) ≤ geoMeanTrueClassProbability [.int 0]
      ⟨[.int 0, .int 1], [[1 / 2, 1 / 2]]⟩ :=
  ⟨by decide, (C4_geo_mean_true_class_prob [.int 0]
    ⟨[.int 0, .int 1], [[1 / 2, 1 / 2]]⟩ (by decide)).2.2.2⟩

theorem filterMap_id_of_all_isSome (vs : List (Option ℚ))
    (h : ∀ x ∈ vs, x.isSome = true) :
    vs.filterMap id = vs.map (fun x => x.getD 0) := by
  induction vs with
  | nil => rfl
  | cons a l ih =>
      rcases a with - | q
      · exact absurd (h none (by simp)) (by simp)
      · rw [List.filterMap_cons, List.map_cons]
        have := ih (fun x hx => h x (by simp [hx]))
        simp only [id]
        rw [this]
        rfl

/-- C5: in `compareModels`, the per-model means are taken after dropping
every metric column containing at least one NaN across all (model, dataset)
rows; consequently the mean-results table contains no NaN, and each
remaining entry is the plain arithmetic mean of that model's values for
that metric over all its rows. -/
theorem C5_mean_results (numCols : Nat) (rows : List ResultRow) (name : String) (j : Nat)
    (hname : ∃ r ∈ rows, r.modelName = name)
    (hj : j ∈ keptColumns numCols rows) :
    (∃ q, skipnaMean (modelColumn rows name j) = some q ∧
      q = ((rows.filter (fun r => r.modelName = name)).map
            (fun r => (r.values.getD j none).getD 0)).sum /
          ((rows.filter (fun r => r.modelName = name)).length : ℚ)) ∧
    (∀ v ∈ meanResults numCols rows name, v.isSome = true) := by
  have hgrpne : rows.filter (fun r => r.modelName = name) ≠ [] := by
    obtain ⟨r, hr, hrn⟩ := hname
    intro hnil
    have hmem : r ∈ rows.filter (fun r => r.modelName = name) :=
      List.mem_filter.mpr ⟨hr, by simp [hrn]⟩
    rw [hnil] at hmem
    exact absurd hmem (List.not_mem_nil r)
  have hmain : ∀ j2 ∈ keptColumns numCols rows,
      ∃ q, skipnaMean (modelColumn rows name j2) = some q ∧
        q = ((rows.filter (fun r => r.modelName = name)).map
              (fun r => (r.values.getD j2 none).getD 0)).sum /
            ((rows.filter (fun r => r.modelName = name)).length : ℚ) := by
    intro j2 hj2
    have hall : ∀ r ∈ rows, (r.values.getD j2 none).isSome = true := by
      have hf := (List.mem_filter.mp hj2).2
      rw [List.all_eq_true] at hf
      intro r hr
      exact hf r hr
    have hcolall : ∀ x ∈ modelColumn rows name j2, x.isSome = true := by
      intro x hx
      unfold modelColumn at hx
      obtain ⟨r, hr, hrx⟩ := List.mem_map.mp hx
      rw [← hrx]
      exact hall r (List.mem_filter.mp hr).1
    unfold skipnaMean
    rw [filterMap_id_of_all_isSome _ hcolall]
    have hmm : (modelColumn rows name j2).map (fun x => x.getD 0) =
        (rows.filter (fun r => r.modelName = name)).map
          (fun r => (r.values.getD j2 none).getD 0) := by
      unfold modelColumn
      rw [List.map_map]
      rfl
    have hlen : ((modelColumn rows name j2).map (fun x => x.getD 0)).length =
        (rows.filter (fun r => r.modelName = name)).length := by
      unfold modelColumn
      rw [List.length_map, List.length_map]
    have hlenne : ((modelColumn rows name j2).map (fun x => x.getD 0)).length ≠ 0 := by
      rw [hlen]
      exact fun h0 => hgrpne (List.length_eq_zero.mp h0)
    rw [if_neg hlenne]
    exact ⟨_, rfl, by rw [hmm, List.length_map]⟩
  refine ⟨hmain j hj, ?_⟩
  intro v hv
  unfold meanResults at hv
  obtain ⟨j2, hj2, hjv⟩ := List.mem_map.mp hv
  obtain ⟨q, hq, -⟩ := hmain j2 hj2
  rw [← hjv, hq]
  rfl

/-- C5 witness. -/
theorem C5_mean_results_witness :
    (∃ r ∈ [ResultRow.mk "m" [some 1], ResultRow.mk "m" [some 2]], r.modelName = "m") ∧
    (0 ∈ keptColumns 1 [ResultRow.mk "m" [some 1], ResultRow.mk "m" [some 2]]) ∧
    skipnaMean (modelColumn [ResultRow.mk "m" [some 1], ResultRow.mk "m" [some 2]] "m" 0) =
      some (3 / 2) := by
  have h1 : ∃ r ∈ [ResultRow.mk "m" [some 1], ResultRow.mk "m" [some 2]],
      r.modelName = "m" := ⟨ResultRow.mk "m" [some 1], by simp, rfl⟩
  have h2 : 0 ∈ keptColumns 1 [ResultRow.mk "m" [some 1], ResultRow.mk "m" [some 2]] := by
    decide
  obtain ⟨q, hq, hqe⟩ := (C5_mean_results 1
    [ResultRow.mk "m" [some 1], ResultRow.mk "m" [some 2]] "m" 0 h1 h2).1
  refine ⟨h1, h2, ?_⟩
  rw [hq, hqe]
  norm_num

theorem collectProbabilityFrames_eq (g : CEStats → DataFrame) (l : List CEStats)
    (h : ∀ es ∈ l, es.y_predictedClassProbabilities = some (g es)) :
    collectProbabilityFrames l = some (l.map g) := by
  induction l with
  | nil => rfl
  | cons es rest ih =>
      unfold collectProbabilityFrames
      rw [h es (by simp), ih (fun e he => h e (by simp [he])), List.map_cons]

theorem nCorrect_append (a c b d : List PyVal) (hab : a.length = b.length) :
    nCorrect (a ++ c) (b ++ d) = nCorrect a b + nCorrect c d := by
  unfold nCorrect
  rw [List.zip_append hab, List.countP_append]

theorem nCorrect_flatMap (l : List CEStats)
    (h : ∀ es ∈ l, es.y_true.length = es.y_predicted.length) :
    nCorrect (l.flatMap (fun es => es.y_true)) (l.flatMap (fun es => es.y_predicted)) =
      (l.map (fun es => nCorrect es.y_true es.y_predicted)).sum := by
  induction l with
  | nil => rfl
  | cons es rest ih =>
      rw [List.flatMap_cons, List.flatMap_cons, nCorrect_append _ _ _ _ (h es (by simp)),
        List.map_cons, List.sum_cons, ih (fun e he => h e (by simp [he]))]

theorem flatMap_y_true_length (l : List CEStats) :
    (l.flatMap (fun es => es.y_true)).length =
      (l.map (fun es => es.y_true.length)).sum := by
  rw [List.length_flatMap]
  apply congrArg
  apply List.map_congr_left
  intro es _
  rfl

theorem accuracyScore_concat (l : List CEStats)
    (hlen : ∀ es ∈ l, es.y_true.length = es.y_predicted.length)
    (hpos : ∀ es ∈ l, 0 < es.y_true.length) :
    accuracyScore (l.flatMap (fun es => es.y_true)) (l.flatMap (fun es => es.y_predicted)) =
      (l.map (fun es => (nCorrect es.y_true es.y_predicted : ℚ))).sum /
        (l.map (fun es => (es.y_true.length : ℚ))).sum ∧
    accuracyScore (l.flatMap (fun es => es.y_true)) (l.flatMap (fun es => es.y_predicted)) =
      (l.map (fun es => (es.y_true.length : ℚ) *
        accuracyScore es.y_true es.y_predicted)).sum /
        (l.map (fun es => (es.y_true.length : ℚ))).sum := by
  have h1 : accuracyScore (l.flatMap (fun es => es.y_true))
      (l.flatMap (fun es => es.y_predicted)) =
      (l.map (fun es => (nCorrect es.y_true es.y_predicted : ℚ))).sum /
        (l.map (fun es => (es.y_true.length : ℚ))).sum := by
    unfold accuracyScore
    rw [nCorrect_flatMap l hlen, flatMap_y_true_length l]
    rw [Nat.cast_list_sum, Nat.cast_list_sum, List.map_map, List.map_map]
    apply congrArg₂ <;> · apply congrArg; apply List.map_congr_left; intro es _; rfl
  refine ⟨h1, ?_⟩
  rw [h1]
  apply congrArg₂
  · apply congrArg
    apply List.map_congr_left
    intro es hes
    unfold accuracyScore
    have hne : ((es.y_true.length : ℚ)) ≠ 0 :=
      Nat.cast_ne_zero.mpr (hpos es hes).ne'
    rw [mul_comm, div_mul_cancel₀ _ hne]
  · rfl

theorem resolve_bplArgOfOption (labels : List PyVal) (o : Option PyVal) :
    resolveBinaryPositiveLabel labels (bplArgOfOption o) = o := by
  cases o <;> rfl

/-- C6: `getGlobalStats` concatenates the folds' `y_true` and `y_predicted`
arrays (and their class-probability frames, when the first fold has
probabilities) in list order and inherits `binaryPositiveLabel` and
`metrics` from the first fold; consequently the global accuracy equals the
total number of correct predictions divided by the total number of samples,
which is the sample-count-weighted mean of the per-fold accuracies. -/
theorem C6_global_stats :
    (∀ (es0 : CEStats) (rest : List CEStats),
      es0.y_predictedClassProbabilities = none →
      (∀ es ∈ es0 :: rest, es.y_true.length = es.y_predicted.length) →
      (∀ es ∈ es0 :: rest, 0 < es.y_true.length) →
      ∃ g, getGlobalStats (es0 :: rest) = .ok g ∧
        g.y_true = (es0 :: rest).flatMap (fun es => es.y_true) ∧
        g.y_predicted = (es0 :: rest).flatMap (fun es => es.y_predicted) ∧
        g.y_predictedClassProbabilities = none ∧
        g.labels = es0.labels ∧
        g.binaryPositiveLabel = es0.binaryPositiveLabel ∧
        g.metrics = es0.metrics ∧
        accuracyScore g.y_true g.y_predicted =
          ((es0 :: rest).map (fun es => (nCorrect es.y_true es.y_predicted : ℚ))).sum /
            ((es0 :: rest).map (fun es => (es.y_true.length : ℚ))).sum ∧
        accuracyScore g.y_true g.y_predicted =
          ((es0 :: rest).map (fun es => (es.y_true.length : ℚ) *
            accuracyScore es.y_true es.y_predicted)).sum /
            ((es0 :: rest).map (fun es => (es.y_true.length : ℚ))).sum) ∧
    (∀ (es0 : CEStats) (rest : List CEStats) (df0 : DataFrame),
      es0.y_predictedClassProbabilities = some df0 →
      (∀ es ∈ es0 :: rest, ∃ df, es.y_predictedClassProbabilities = some df ∧
        df.columns = df0.columns ∧ df.rows.length = es.y_true.length) →
      (∀ es ∈ es0 :: rest, es.y_true.length = es.y_predicted.length) →
      (∀ es ∈ es0 :: rest, 0 < es.y_true.length) →
      ∃ g, getGlobalStats (es0 :: rest) = .ok g ∧
        g.y_true = (es0 :: rest).flatMap (fun es => es.y_true) ∧
        g.y_predicted = (es0 :: rest).flatMap (fun es => es.y_predicted) ∧
        g.y_predictedClassProbabilities =
          some ⟨df0.columns, (es0 :: rest).flatMap foldProbabilityRows⟩ ∧
        g.labels = df0.columns ∧
        g.binaryPositiveLabel = es0.binaryPositiveLabel ∧
        g.metrics = es0.metrics ∧
        accuracyScore g.y_true g.y_predicted =
          ((es0 :: rest).map (fun es => (nCorrect es.y_true es.y_predicted : ℚ))).sum /
            ((es0 :: rest).map (fun es => (es.y_true.length : ℚ))).sum ∧
        accuracyScore g.y_true g.y_predicted =
          ((es0 :: rest).map (fun es => (es.y_true.length : ℚ) *
            accuracyScore es.y_true es.y_predicted)).sum /
            ((es0 :: rest).map (fun es => (es.y_true.length : ℚ))).sum) := by
  constructor
  · intro es0 rest hnone hlen hpos
    have hmk : getGlobalStats (es0 :: rest) = .ok
        ⟨(es0 :: rest).flatMap (fun es => es.y_predicted),
         (es0 :: rest).flatMap (fun es => es.y_true),
         none, es0.labels, es0.binaryPositiveLabel, es0.metrics⟩ := by
      simp only [getGlobalStats, hnone]
      unfold mkClassificationEvalStats
      simp only [Option.isNone_none, Option.getD_none, List.any_nil, Bool.and_false,
        Bool.false_eq_true, if_false, resolve_bplArgOfOption, List.append_nil]
    refine ⟨_, hmk, rfl, rfl, rfl, rfl, rfl, rfl, ?_, ?_⟩
    · exact (accuracyScore_concat (es0 :: rest) hlen hpos).1
    · exact (accuracyScore_concat (es0 :: rest) hlen hpos).2
  · intro es0 rest df0 hdf0 hframes hlen hpos
    have hg : ∀ es ∈ es0 :: rest, es.y_predictedClassProbabilities =
        some (DataFrame.mk df0.columns (foldProbabilityRows es)) := by
      intro es hes
      obtain ⟨df, hdf, hcols, -⟩ := hframes es hes
      have hrows : foldProbabilityRows es = df.rows := by
        unfold foldProbabilityRows
        rw [hdf]
      rw [hdf, hrows]
      cases df
      simp only at hcols ⊢
      rw [hcols]
    have hcollect : collectProbabilityFrames (es0 :: rest) =
        some ((es0 :: rest).map
          (fun es => DataFrame.mk df0.columns (foldProbabilityRows es))) :=
      collectProbabilityFrames_eq _ _ hg
    have hconcat : concatDataFrames ((es0 :: rest).map
        (fun es => DataFrame.mk df0.columns (foldProbabilityRows es))) =
        ⟨df0.columns, (es0 :: rest).flatMap foldProbabilityRows⟩ := by
      simp only [List.map_cons, concatDataFrames, List.flatMap_cons, List.flatMap_map]
    have hrowlen : ((es0 :: rest).flatMap foldProbabilityRows).length =
        ((es0 :: rest).flatMap (fun es => es.y_true)).length := by
      rw [List.length_flatMap, List.length_flatMap]
      apply congrArg
      apply List.map_congr_left
      intro es hes
      obtain ⟨df, hdf, -, hrl⟩ := hframes es hes
      show (foldProbabilityRows es).length = es.y_true.length
      unfold foldProbabilityRows
      rw [hdf]
      exact hrl
    have hmk : getGlobalStats (es0 :: rest) = .ok
        ⟨(es0 :: rest).flatMap (fun es => es.y_predicted),
         (es0 :: rest).flatMap (fun es => es.y_true),
         some ⟨df0.columns, (es0 :: rest).flatMap foldProbabilityRows⟩,
         df0.columns, es0.binaryPositiveLabel, es0.metrics⟩ := by
      simp only [getGlobalStats, hdf0, hcollect, hconcat]
      unfold mkClassificationEvalStats
      simp only
      rw [if_neg (by rw [pySetEq_refl]; simp)]
      rw [if_neg (fun hne => hne hrowlen)]
      simp only [Option.isNone_some, Option.getD_none, Bool.false_and,
        Bool.false_eq_true, if_false, resolve_bplArgOfOption, List.append_nil]
    refine ⟨_, hmk, rfl, rfl, rfl, rfl, rfl, rfl, ?_, ?_⟩
    · exact (accuracyScore_concat (es0 :: rest) hlen hpos).1
    · exact (accuracyScore_concat (es0 :: rest) hlen hpos).2

/-- C6 witness. -/
theorem C6_global_stats_witness :
    ∃ g, getGlobalStats [⟨[.int 1], [.int 1], some ⟨[.int 0, .int 1], [[1 / 4, 3 / 4]]⟩,
        [.int 0, .int 1], some (.int 1), []⟩] = .ok g ∧
      g.binaryPositiveLabel = some (.int 1) ∧
      accuracyScore g.y_true g.y_predicted = 1 := by
  obtain ⟨g, hok, -, -, -, -, hbpl, -, hacc, -⟩ :=
    C6_global_stats.2
      ⟨[.int 1], [.int 1], some ⟨[.int 0, .int 1], [[1 / 4, 3 / 4]]⟩,
        [.int 0, .int 1], some (.int 1), []⟩ [] ⟨[.int 0, .int 1], [[1 / 4, 3 / 4]]⟩ rfl
      (by
        intro es hes
        simp only [List.mem_singleton] at hes
        subst hes
        exact ⟨⟨[.int 0, .int 1], [[1 / 4, 3 / 4]]⟩, rfl, rfl, rfl⟩)
      (by
        intro es hes
        simp only [List.mem_singleton] at hes
        subst hes
        rfl)
      (by
        intro es hes
        simp only [List.mem_singleton] at hes
        subst hes
        decide)
  refine ⟨g, hok, hbpl, ?_⟩
  rw [hacc]
  norm_num [nCorrect, pyEq]

end SensAI
